import Mathlib

/-!
Shallow embedding of `src/pricingreport.py` (pricing-JSON parser): the
monetary value model (`PriceInfo` over Python `Decimal` values, modelled as
exact rationals with explicit 28-significant-digit context rounding where the
source performs decimal arithmetic), the regional pricing decoder
(`get_pricing_from_JSON`), the validated `ItemPrice` aggregate, and the output
projection (`output_str_value`, with Python `float` modelled as IEEE-754
binary64 rounding of exact rationals).
-/

namespace PricingReport

set_option maxRecDepth 8000

attribute [local semireducible] Rat.mul Rat.add Rat.sub Rat.inv Rat.ofScientific

deriving instance DecidableEq for Except

/-- Fuel-driven base-`b` logarithm on naturals: counts how many times `n` can be
divided by `b` before falling below `b`. With `fuel ≥ n` this is `⌊log_b n⌋`
for `n ≥ 1`. Structural recursion on `fuel` keeps it kernel-reducible. -/
def logFuel (b : ℕ) : ℕ → ℕ → ℕ
  | 0, _ => 0
  | fuel + 1, n => if n < b then 0 else logFuel b fuel (n / b) + 1

/-- Floor logarithm of `n` in base `b` (for `2 ≤ b`, `1 ≤ n`). -/
def natLog (b n : ℕ) : ℕ := logFuel b n n

/-- Round a rational to the nearest integer, ties to even (banker's rounding):
the rounding mode of Python's default decimal context (ROUND_HALF_EVEN). -/
def rhe (q : ℚ) : ℤ :=
  if q - ⌊q⌋ < 1/2 then ⌊q⌋
  else if 1/2 < q - ⌊q⌋ then ⌊q⌋ + 1
  else if ⌊q⌋ % 2 = 0 then ⌊q⌋ else ⌊q⌋ + 1

/-- Round a rational to the nearest integer, ties away from zero: Python
decimal's ROUND_HALF_UP mode. -/
def rhu (q : ℚ) : ℤ :=
  if 0 ≤ q then ⌊q + 1/2⌋ else -⌊-q + 1/2⌋

/-- Power of a natural base by an integer exponent in `ℚ`, computed through
kernel-accelerated `Nat.pow`; equal to `(b : ℚ) ^ k` (see `qpow_eq_zpow`). -/
def qpow (b : ℕ) (k : ℤ) : ℚ :=
  match k with
  | .ofNat n => ((b ^ n : ℕ) : ℚ)
  | .negSucc n => ((b ^ (n + 1) : ℕ) : ℚ)⁻¹

/-- Floor of the base-`b` logarithm of a positive rational `q`: the unique `e`
with `b^e ≤ q < b^(e+1)`. -/
def ratILog (b : ℕ) (q : ℚ) : ℤ :=
  let g : ℤ := (natLog b q.num.toNat : ℤ) - (natLog b q.den : ℤ)
  if q < qpow b g then g - 1 else g

/-- Value of rounding a positive rational to 28 significant decimal digits,
ties to even: what an arithmetic operation of Python's default decimal context
(`prec = 28`, ROUND_HALF_EVEN) produces when the exact result is positive. -/
def decCtxPos (a : ℚ) : ℚ :=
  (rhe (a / qpow 10 (ratILog 10 a - 27)) : ℚ) * qpow 10 (ratILog 10 a - 27)

/-- Context rounding of an exact rational result to 28 significant decimal
digits, ties to even, any sign. Exactly representable values (at most 28
significant digits) are left unchanged, matching Python decimal semantics at
the level of numeric values. -/
def decCtx (q : ℚ) : ℚ :=
  if q = 0 then 0 else if 0 < q then decCtxPos q else -decCtxPos (-q)

/-- Python decimal division under the default context, as a value map. -/
def ctxDiv (a b : ℚ) : ℚ := decCtx (a / b)

/-- Python decimal subtraction under the default context, as a value map. -/
def ctxSub (a b : ℚ) : ℚ := decCtx (a - b)

/-- Python decimal multiplication under the default context, as a value map. -/
def ctxMul (a b : ℚ) : ℚ := decCtx (a * b)

/-- Python decimal `quantize(Decimal('0.01'), rounding=ROUND_HALF_UP)` as a
value map; `none` models the InvalidOperation exception raised when the
quantized coefficient would exceed the 28-digit context precision. -/
def pyQuantize2 (v : ℚ) : Option ℚ :=
  let m := rhu (v * 100)
  if 10 ^ 28 ≤ m.natAbs then none else some ((m : ℚ) / 100)

/-- Numeric value of a decimal digit character. -/
def digitVal (c : Char) : ℕ := c.toNat - 48

/-- Value of a list of decimal digit characters read in base 10. -/
def digitsVal (cs : List Char) : ℕ := cs.foldl (fun a c => 10 * a + digitVal c) 0

/-- Parse an unsigned plain decimal literal (digits with at most one point, at
least one digit), returning (coefficient, scale): the literal's value is
coefficient / 10^scale. -/
def parseUnsignedDec (cs : List Char) : Option (ℕ × ℕ) :=
  let ip := cs.takeWhile Char.isDigit
  match cs.dropWhile Char.isDigit with
  | [] => if ip = [] then none else some (digitsVal ip, 0)
  | '.' :: fp =>
    if fp.all Char.isDigit then
      if ip = [] ∧ fp = [] then none
      else some (digitsVal (ip ++ fp), fp.length)
    else none
  | _ => none

/-- Python `Decimal(string)` construction (exact, no context rounding),
restricted to the plain fixed-point fragment `[sign] digits [. digits]` that
the pricing payloads use; returns the literal (signed coefficient, scale). -/
def parseDecString (s : String) : Option (ℤ × ℕ) :=
  match s.data with
  | '+' :: cs => (parseUnsignedDec cs).map fun cd => ((cd.1 : ℤ), cd.2)
  | '-' :: cs => (parseUnsignedDec cs).map fun cd => (-(cd.1 : ℤ), cd.2)
  | cs => (parseUnsignedDec cs).map fun cd => ((cd.1 : ℤ), cd.2)

/-- Mirrors `PriceInfo.empty_string_to_none` (field validator, mode=before):
empty strings and missing values are normalized to `None` before decimal
parsing. -/
def empty_string_to_none (v : Option String) : Option String :=
  match v with
  | some s => if s = "" then none else some s
  | none => none

/-- Pydantic validation of one `Optional[Decimal]` price field with
`decimal_places=2`: normalize empty string to `None`, then parse the string as
an exact decimal and require at most 2 literal decimal places; a non-empty,
non-conforming string is a validation error. -/
def validateAmount (v : Option String) : Except Unit (Option ℚ) :=
  match empty_string_to_none v with
  | none => .ok none
  | some s =>
    match parseDecString s with
    | none => .error ()
    | some cd => if cd.2 ≤ 2 then .ok (some ((cd.1 : ℚ) / 10 ^ cd.2)) else .error ()

/-- Mirrors the pydantic model `PriceInfo`: optional sale and regular prices,
with Python `Decimal` values embedded as exact rationals. -/
structure PriceInfo where
  salePrice : Option ℚ
  price : Option ℚ
deriving DecidableEq

/-- Mirrors `PriceInfo.has_pricing`: true iff both prices are set. -/
def PriceInfo.has_pricing (pi : PriceInfo) : Bool :=
  pi.salePrice.isSome && pi.price.isSome

/-- Mirrors `PriceInfo.discount_percentage`: `None` when a price is missing or
the regular price is zero, otherwise `(1 - salePrice/price) * 100` computed by
Python decimal context operations and quantized to 2 places half-up. The
`Except` error models the InvalidOperation exception `quantize` raises when
the result needs more than 28 digits. -/
def PriceInfo.discount_percentage (pi : PriceInfo) : Except Unit (Option ℚ) :=
  match pi.salePrice, pi.price with
  | some s, some p =>
    if p = 0 then .ok none
    else
      match pyQuantize2 (ctxMul (ctxSub 1 (ctxDiv s p)) 100) with
      | some q => .ok (some q)
      | none => .error ()
  | _, _ => .ok none

/-- Mirrors `PriceInfo.savings_amount`: `None` if either price is missing,
else the context difference of regular and sale price. -/
def PriceInfo.savings_amount (pi : PriceInfo) : Option ℚ :=
  match pi.salePrice, pi.price with
  | some s, some p => some (ctxSub p s)
  | _, _ => none

/-- Mirrors the raw JSON shape of one region's entry: an object with two
optional string-valued fields `price` and `salePrice` (absent JSON keys and
JSON nulls are both modelled as `none`, which pydantic treats identically
here). -/
structure RawPrice where
  price : Option String
  salePrice : Option String
deriving DecidableEq

/-- Pydantic validation of one `PriceInfo` object from its raw fields. -/
def validateEntry (rp : RawPrice) : Except Unit PriceInfo :=
  match validateAmount rp.salePrice, validateAmount rp.price with
  | .ok s, .ok p => .ok ⟨s, p⟩
  | _, _ => .error ()

/-- Mirrors the `Country` enum (declaration order: CA, then US). -/
inductive Country where
  | CA
  | US
deriving DecidableEq

/-- Mirrors `Country.value`: the serialized region code. -/
def Country.value : Country → String
  | .CA => "ca"
  | .US => "us"

/-- Declared regions in enum iteration order (`for country in Country`). -/
def countries : List Country := [.CA, .US]

/-- Error kinds of the pipeline, one per distinct Python exception type:
`ValidationError` from pydantic (malformed payload), `KeyError` from the
region lookup (region key absent from the decoded object), `WrongSKUError`
and `MissingCountryError` from `ItemPrice.validate_prices`. -/
inductive PricingError where
  | malformedPayload
  | regionNotFound (c : Country)
  | wrongSku
  | missingCountry
deriving DecidableEq

/-- Mirrors the `CountryPrice` dataclass. -/
structure CountryPrice where
  sku : String
  price : Option ℚ
  sale_price : Option ℚ
  country : Country
deriving DecidableEq

/-- Last-occurrence-wins insertion of a key/value pair into an association
list, keeping the first occurrence's position: Python dict update semantics. -/
def upsert (l : List (String × RawPrice)) (k : String) (v : RawPrice) :
    List (String × RawPrice) :=
  match l with
  | [] => [(k, v)]
  | (k', v') :: t => if k' = k then (k, v) :: t else (k', v') :: upsert t k v

/-- Collapse duplicate keys of a decoded JSON object the way Python's JSON
parser builds a dict: later duplicate keys override earlier ones. -/
def collapse (entries : List (String × RawPrice)) : List (String × RawPrice) :=
  entries.foldl (fun acc kv => upsert acc kv.1 kv.2) []

/-- Lookup in an association list (keys are unique after `collapse`). -/
def alookup {α : Type} (l : List (String × α)) (k : String) : Option α :=
  match l with
  | [] => none
  | (k', v) :: t => if k' = k then some v else alookup t k

/-- Validate every value of the collapsed JSON object in order. -/
def validateEntries : List (String × RawPrice) →
    Except Unit (List (String × PriceInfo))
  | [] => .ok []
  | (k, rp) :: t =>
    match validateEntry rp, validateEntries t with
    | .ok pi, .ok m => .ok ((k, pi) :: m)
    | _, _ => .error ()

/-- Mirrors `ProductPricing.model_validate_json` on a syntactically valid JSON
object of region entries: parse the object into a dict (duplicate keys
collapsed, later wins) and validate every value as a `PriceInfo`; any failure
is a pydantic `ValidationError` (= `malformedPayload`). -/
def productPricingValidate (entries : List (String × RawPrice)) :
    Except PricingError (List (String × PriceInfo)) :=
  match validateEntries (collapse entries) with
  | .ok m => .ok m
  | .error _ => .error .malformedPayload

/-- The per-region price map built by `get_pricing_from_JSON`
(`dict[Country, CountryPrice]`); fields in the insertion order of the loop
(CA first, matching enum order). A key can be absent in hand-built maps fed
to `ItemPrice`, hence the `Option`s. -/
structure PriceMap where
  ca : Option CountryPrice
  us : Option CountryPrice
deriving DecidableEq

/-- Mirrors `PricingFile.get_pricing_from_JSON` on a syntactically valid JSON
object: validate the payload, then for each declared Country in enum order
look up its region code in the decoded dict (an absent key raises `KeyError`
= `regionNotFound`) and bind the entry's prices to the given SKU. -/
def get_pricing_from_JSON (entries : List (String × RawPrice)) (sku : String) :
    Except PricingError PriceMap :=
  match productPricingValidate entries with
  | .error e => .error e
  | .ok m =>
    match alookup m (Country.value .CA) with
    | none => .error (.regionNotFound .CA)
    | some piCA =>
      match alookup m (Country.value .US) with
      | none => .error (.regionNotFound .US)
      | some piUS =>
        .ok ⟨some ⟨sku, piCA.price, piCA.salePrice, .CA⟩,
             some ⟨sku, piUS.price, piUS.salePrice, .US⟩⟩

/-- Mirrors the `sku: str | int` field of `ItemPrice`. -/
inductive SkuVal where
  | str (s : String)
  | int (n : ℤ)
deriving DecidableEq

/-- Python `str(self.sku)` over the `str | int` union. -/
def SkuVal.toText : SkuVal → String
  | .str s => s
  | .int n => toString n

/-- Python equality test between the aggregate's `str | int` SKU and a
`CountryPrice`'s string SKU: values of different types are never equal. -/
def skuMatches (sv : SkuVal) (s : String) : Bool :=
  match sv with
  | .str t => t == s
  | .int _ => false

/-- Values of the price map in insertion order (`self.prices.values()`). -/
def PriceMap.values (m : PriceMap) : List CountryPrice :=
  m.ca.toList ++ m.us.toList

/-- Mirrors the validated, frozen `ItemPrice` aggregate. -/
structure ItemPrice where
  sku : SkuVal
  prices : PriceMap
deriving DecidableEq

/-- Mirrors constructing `ItemPrice(sku=…, prices=…)`, whose `mode="after"`
model validator `validate_prices` first raises `WrongSKUError` on the first
entry whose SKU differs from the aggregate's, then raises
`MissingCountryError` when the entry count differs from `len(Country)`. -/
def ItemPrice.construct (sku : SkuVal) (m : PriceMap) :
    Except PricingError ItemPrice :=
  if m.values.any (fun cp => !skuMatches sku cp.sku) then .error .wrongSku
  else if m.values.length ≠ countries.length then .error .missingCountry
  else .ok ⟨sku, m⟩

/-- Python `float` values: a finite IEEE-754 binary64 value carried as its
exact rational value, or an infinity. -/
inductive PyFloat where
  | finite (q : ℚ)
  | inf
  | negInf
deriving DecidableEq

/-- Floor of the base-2 logarithm of a positive rational. -/
def ilog2 (q : ℚ) : ℤ := ratILog 2 q

/-- Round a positive rational to the nearest binary64 value, ties to even:
53 significant bits for normal values, fixed scale 2^(-1074) below the normal
range, infinity above the largest finite double. -/
def roundDoublePos (a : ℚ) : PyFloat :=
  let k : ℤ := max (ilog2 a - 52) (-1074)
  let m : ℤ := rhe (a / qpow 2 k)
  if qpow 2 1024 ≤ (m : ℚ) * qpow 2 k then .inf
  else .finite ((m : ℚ) * qpow 2 k)

/-- Python `float(string)`: correctly rounded binary64 conversion, modelled on
the string's exact rational value. -/
def roundDouble (q : ℚ) : PyFloat :=
  if q = 0 then .finite 0
  else if 0 < q then roundDoublePos q
  else
    match roundDoublePos (-q) with
    | .finite x => .finite (-x)
    | _ => .negInf

/-- Mirrors `ItemPrice._price_or_zero` at the level of the value that the
produced string denotes: `"0"` for a missing price and for a zero price
(Python truthiness of `Decimal`), else the exact decimal string. -/
def price_or_zero (p : Option ℚ) : ℚ :=
  match p with
  | some d => if d = 0 then 0 else d
  | none => 0

/-- One cell of the output row. -/
inductive OutCell where
  | text (s : String)
  | num (f : PyFloat)
deriving DecidableEq

/-- Python `float(self._price_or_zero(p))`: the cell value a price projects
to. -/
def outCellOf (p : Option ℚ) : OutCell :=
  .num (roundDouble (price_or_zero p))

/-- Mirrors the `ItemPrice.output_str_value` property: the fixed-order row
`[str(sku), US price, US sale price, CA price, CA sale price]` with prices
coerced through `float`. `none` models the `KeyError` raised when a region is
absent from the map. -/
def ItemPrice.output_str_value (ip : ItemPrice) : Option (List OutCell) :=
  match ip.prices.us, ip.prices.ca with
  | some u, some c =>
    some [.text ip.sku.toText, outCellOf u.price, outCellOf u.sale_price,
          outCellOf c.price, outCellOf c.sale_price]
  | _, _ => none

/-- One row of `AMERPricingFile.get_prices`: decode the payload cell's JSON
object, then construct the validated aggregate for the row's SKU. -/
def processRow (entries : List (String × RawPrice)) (sku : String) :
    Except PricingError ItemPrice :=
  match get_pricing_from_JSON entries sku with
  | .error e => .error e
  | .ok m => ItemPrice.construct (.str sku) m

/-- Decode-then-project composition for one row. -/
def rowOutput (entries : List (String × RawPrice)) (sku : String) :
    Except PricingError (Option (List OutCell)) :=
  match processRow entries sku with
  | .error e => .error e
  | .ok ip => .ok ip.output_str_value

/-- Specification-side definition, following the words of the spec for
`discountPercentage()`: `(1 − sale/regular) × 100` in exact decimal (rational)
arithmetic, rounded half-up to 2 decimal places. Compared against the
embedded source definition `PriceInfo.discount_percentage`. -/
def discountSpec (s p : ℚ) : ℚ :=
  (rhu ((1 - s / p) * 100 * 100) : ℚ) / 100

/-- Comparison helper for the zero-vs-null projection claim: a present zero
amount replaced by a missing amount. -/
def nullifyZero (p : Option ℚ) : Option ℚ :=
  match p with
  | some d => if d = 0 then none else some d
  | none => none

/-- Comparison helper: `nullifyZero` applied to both price fields. -/
def nullifyZeroCP (cp : CountryPrice) : CountryPrice :=
  ⟨cp.sku, nullifyZero cp.price, nullifyZero cp.sale_price, cp.country⟩

/-! Basic lemmas about the rounding primitives. -/

theorem qpow_eq_zpow (b : ℕ) (k : ℤ) : qpow b k = (b : ℚ) ^ k := by
  match k with
  | .ofNat n =>
    show ((b ^ n : ℕ) : ℚ) = (b : ℚ) ^ (n : ℤ)
    rw [zpow_natCast]
    push_cast
    ring
  | .negSucc n =>
    show ((b ^ (n + 1) : ℕ) : ℚ)⁻¹ = (b : ℚ) ^ (Int.negSucc n)
    rw [zpow_negSucc]
    push_cast
    ring

theorem logFuel_spec (b : ℕ) (hb : 2 ≤ b) :
    ∀ fuel n, n ≠ 0 → n ≤ fuel →
      b ^ logFuel b fuel n ≤ n ∧ n < b ^ (logFuel b fuel n + 1) := by
  intro fuel
  induction fuel with
  | zero => intro n hn h; omega
  | succ f ih =>
    intro n hn h
    rw [logFuel]
    by_cases hnb : n < b
    · simp only [hnb, if_true]
      constructor
      · simpa using Nat.one_le_iff_ne_zero.mpr hn
      · simpa using hnb
    · simp only [hnb, if_false]
      have hb0 : 0 < b := by omega
      have hne : n / b ≠ 0 := by
        have : 1 ≤ n / b := (Nat.one_le_div_iff hb0).mpr (by omega)
        omega
      have hlt : n / b < n := Nat.div_lt_self (by omega) (by omega)
      obtain ⟨h1, h2⟩ := ih (n / b) hne (by omega)
      constructor
      · calc b ^ (logFuel b f (n / b) + 1) = b ^ logFuel b f (n / b) * b := by
              rw [pow_succ]
          _ ≤ n / b * b := Nat.mul_le_mul_right b h1
          _ ≤ n := Nat.div_mul_le_self n b
      · have := (Nat.div_lt_iff_lt_mul hb0).mp h2
        calc n < b ^ (logFuel b f (n / b) + 1) * b := this
          _ = b ^ (logFuel b f (n / b) + 1 + 1) := by ring

theorem natLog_spec (b n : ℕ) (hb : 2 ≤ b) (hn : n ≠ 0) :
    b ^ natLog b n ≤ n ∧ n < b ^ (natLog b n + 1) :=
  logFuel_spec b hb n n hn le_rfl

theorem ratILog_spec (b : ℕ) (hb : 2 ≤ b) (q : ℚ) (hq : 0 < q) :
    (b : ℚ) ^ ratILog b q ≤ q ∧ q < (b : ℚ) ^ (ratILog b q + 1) := by
  have hbq : (1 : ℚ) < (b : ℚ) := by exact_mod_cast by omega
  have hb0 : (0 : ℚ) < (b : ℚ) := by positivity
  have hbne : (b : ℚ) ≠ 0 := ne_of_gt hb0
  have hnum : 0 < q.num := Rat.num_pos.mpr hq
  have hn : q.num.toNat ≠ 0 := by omega
  have hd : q.den ≠ 0 := q.den_nz
  obtain ⟨ha1, ha2⟩ := natLog_spec b q.num.toNat hb hn
  obtain ⟨hc1, hc2⟩ := natLog_spec b q.den hb hd
  set a := natLog b q.num.toNat with hadef
  set c := natLog b q.den with hcdef
  have hden : (0 : ℚ) < (q.den : ℚ) := by exact_mod_cast q.pos
  have hqeq : q = (q.num.toNat : ℚ) / (q.den : ℚ) := by
    have h1 : ((q.num.toNat : ℤ) : ℚ) = (q.num : ℚ) := by
      rw [Int.toNat_of_nonneg (le_of_lt hnum)]
    push_cast at h1
    rw [h1]
    exact (Rat.num_div_den q).symm
  have hA1 : ((b : ℚ)) ^ (a : ℤ) ≤ (q.num.toNat : ℚ) := by
    rw [zpow_natCast]; exact_mod_cast ha1
  have hA2 : (q.num.toNat : ℚ) < (b : ℚ) ^ ((a : ℤ) + 1) := by
    have : ((a : ℤ) + 1) = ((a + 1 : ℕ) : ℤ) := by push_cast; ring
    rw [this, zpow_natCast]; exact_mod_cast ha2
  have hC1 : ((b : ℚ)) ^ (c : ℤ) ≤ (q.den : ℚ) := by
    rw [zpow_natCast]; exact_mod_cast hc1
  have hC2 : (q.den : ℚ) < (b : ℚ) ^ ((c : ℤ) + 1) := by
    have : ((c : ℤ) + 1) = ((c + 1 : ℕ) : ℤ) := by push_cast; ring
    rw [this, zpow_natCast]; exact_mod_cast hc2
  have hlow : (b : ℚ) ^ ((a : ℤ) - c - 1) ≤ q := by
    rw [hqeq, le_div_iff₀ hden]
    have hp : (0 : ℚ) < (b : ℚ) ^ ((a : ℤ) - c - 1) := zpow_pos hb0 _
    calc (b : ℚ) ^ ((a : ℤ) - c - 1) * (q.den : ℚ)
        ≤ (b : ℚ) ^ ((a : ℤ) - c - 1) * (b : ℚ) ^ ((c : ℤ) + 1) := by
          apply mul_le_mul_of_nonneg_left (le_of_lt hC2) (le_of_lt hp)
      _ = (b : ℚ) ^ (a : ℤ) := by
          rw [← zpow_add₀ hbne]; ring_nf
      _ ≤ (q.num.toNat : ℚ) := hA1
  have hhigh : q < (b : ℚ) ^ ((a : ℤ) - c + 1) := by
    rw [hqeq, div_lt_iff₀ hden]
    have hp : (0 : ℚ) < (b : ℚ) ^ ((a : ℤ) - c + 1) := zpow_pos hb0 _
    calc (q.num.toNat : ℚ) < (b : ℚ) ^ ((a : ℤ) + 1) := hA2
      _ = (b : ℚ) ^ ((a : ℤ) - c + 1) * (b : ℚ) ^ (c : ℤ) := by
          rw [← zpow_add₀ hbne]; ring_nf
      _ ≤ (b : ℚ) ^ ((a : ℤ) - c + 1) * (q.den : ℚ) := by
          apply mul_le_mul_of_nonneg_left hC1 (le_of_lt hp)
  show (b : ℚ) ^ (if q < qpow b ((a : ℤ) - c) then (a : ℤ) - c - 1 else (a : ℤ) - c) ≤ q ∧
    q < (b : ℚ) ^ ((if q < qpow b ((a : ℤ) - c) then (a : ℤ) - c - 1 else (a : ℤ) - c) + 1)
  rw [qpow_eq_zpow]
  by_cases hcase : q < (b : ℚ) ^ ((a : ℤ) - c)
  · simp only [hcase, if_true]
    refine ⟨hlow, ?_⟩
    have : (a : ℤ) - c - 1 + 1 = (a : ℤ) - c := by ring
    rw [this]
    exact hcase
  · simp only [hcase, if_false]
    exact ⟨le_of_not_lt hcase, hhigh⟩

theorem rhe_ge_floor (q : ℚ) : ⌊q⌋ ≤ rhe q := by
  rw [rhe]
  split_ifs <;> omega

theorem rhe_le_floor_add_one (q : ℚ) : rhe q ≤ ⌊q⌋ + 1 := by
  rw [rhe]
  split_ifs <;> omega

theorem rhe_mono {q r : ℚ} (h : q ≤ r) : rhe q ≤ rhe r := by
  have hf : ⌊q⌋ ≤ ⌊r⌋ := Int.floor_mono h
  by_cases hlt : ⌊q⌋ < ⌊r⌋
  · calc rhe q ≤ ⌊q⌋ + 1 := rhe_le_floor_add_one q
      _ ≤ ⌊r⌋ := by omega
      _ ≤ rhe r := rhe_ge_floor r
  · have heq : ⌊q⌋ = ⌊r⌋ := by omega
    rw [rhe, rhe, heq]
    have hfr : q - (⌊r⌋ : ℚ) ≤ r - (⌊r⌋ : ℚ) := by linarith
    split_ifs <;> first | omega | linarith

theorem rhe_intCast (n : ℤ) : rhe (n : ℚ) = n := by
  rw [rhe]
  norm_num

theorem rhu_mono {q r : ℚ} (h : q ≤ r) : rhu q ≤ rhu r := by
  rw [rhu, rhu]
  by_cases hq : 0 ≤ q
  · have hr : 0 ≤ r := le_trans hq h
    simp only [hq, hr, if_true]
    exact Int.floor_mono (by linarith)
  · by_cases hr : 0 ≤ r
    · simp only [hq, hr, if_true, if_false]
      have h1 : 0 ≤ ⌊-q + 1/2⌋ := Int.floor_nonneg.mpr (by linarith)
      have h2 : 0 ≤ ⌊r + 1/2⌋ := Int.floor_nonneg.mpr (by linarith)
      omega
    · simp only [hq, hr, if_false]
      have : ⌊-r + 1/2⌋ ≤ ⌊-q + 1/2⌋ := Int.floor_mono (by linarith)
      omega

theorem decCtxPos_lb (a : ℚ) (ha : 0 < a) : (10 : ℚ) ^ ratILog 10 a ≤ decCtxPos a := by
  obtain ⟨hs1, hs2⟩ := ratILog_spec 10 (by norm_num) a ha
  set e := ratILog 10 a with he
  have hne : (10 : ℚ) ≠ 0 := by norm_num
  have h10 : (0 : ℚ) < (10 : ℚ) ^ (e - 27) := zpow_pos (by norm_num) _
  have hxlb : (10 : ℚ) ^ (27 : ℤ) ≤ a / (10 : ℚ) ^ (e - 27) := by
    rw [le_div_iff₀ h10, ← zpow_add₀ hne]
    have heq : (27 : ℤ) + (e - 27) = e := by ring
    rw [heq]
    exact hs1
  have hcast : ((10 ^ 27 : ℤ) : ℚ) = (10 : ℚ) ^ (27 : ℤ) := by
    push_cast
    norm_num
  have hfl : (10 ^ 27 : ℤ) ≤ rhe (a / (10 : ℚ) ^ (e - 27)) := by
    refine le_trans ?_ (rhe_ge_floor _)
    refine Int.le_floor.mpr ?_
    rw [hcast]
    exact hxlb
  rw [decCtxPos, qpow_eq_zpow, ← he]
  calc (10 : ℚ) ^ e = (10 : ℚ) ^ (27 : ℤ) * (10 : ℚ) ^ (e - 27) := by
        rw [← zpow_add₀ hne]
        ring_nf
    _ ≤ (rhe (a / (10 : ℚ) ^ (e - 27)) : ℚ) * (10 : ℚ) ^ (e - 27) := by
        apply mul_le_mul_of_nonneg_right _ (le_of_lt h10)
        rw [← hcast]
        exact_mod_cast hfl

theorem decCtxPos_ub (a : ℚ) (ha : 0 < a) : decCtxPos a ≤ (10 : ℚ) ^ (ratILog 10 a + 1) := by
  obtain ⟨hs1, hs2⟩ := ratILog_spec 10 (by norm_num) a ha
  set e := ratILog 10 a with he
  have hne : (10 : ℚ) ≠ 0 := by norm_num
  have h10 : (0 : ℚ) < (10 : ℚ) ^ (e - 27) := zpow_pos (by norm_num) _
  have hxub : a / (10 : ℚ) ^ (e - 27) < (10 : ℚ) ^ (28 : ℤ) := by
    rw [div_lt_iff₀ h10, ← zpow_add₀ hne]
    have heq : (28 : ℤ) + (e - 27) = e + 1 := by ring
    rw [heq]
    exact hs2
  have hcast : ((10 ^ 28 : ℤ) : ℚ) = (10 : ℚ) ^ (28 : ℤ) := by
    push_cast
    norm_num
  have hfl : rhe (a / (10 : ℚ) ^ (e - 27)) ≤ 10 ^ 28 := by
    refine le_trans (rhe_le_floor_add_one _) ?_
    have : ⌊a / (10 : ℚ) ^ (e - 27)⌋ < 10 ^ 28 := by
      refine Int.floor_lt.mpr ?_
      rw [hcast]
      exact hxub
    omega
  rw [decCtxPos, qpow_eq_zpow, ← he]
  calc (rhe (a / (10 : ℚ) ^ (e - 27)) : ℚ) * (10 : ℚ) ^ (e - 27)
      ≤ (10 : ℚ) ^ (28 : ℤ) * (10 : ℚ) ^ (e - 27) := by
        apply mul_le_mul_of_nonneg_right _ (le_of_lt h10)
        rw [← hcast]
        exact_mod_cast hfl
    _ = (10 : ℚ) ^ (e + 1) := by
        rw [← zpow_add₀ hne]
        ring_nf

theorem decCtxPos_pos (a : ℚ) (ha : 0 < a) : 0 < decCtxPos a :=
  lt_of_lt_of_le (zpow_pos (by norm_num) _) (decCtxPos_lb a ha)

theorem decCtxPos_mono {x y : ℚ} (hx : 0 < x) (hxy : x ≤ y) :
    decCtxPos x ≤ decCtxPos y := by
  have hy : 0 < y := lt_of_lt_of_le hx hxy
  have hee : ratILog 10 x ≤ ratILog 10 y := by
    by_contra hcon
    push_neg at hcon
    have h1 : (10 : ℚ) ^ ratILog 10 x ≤ x := (ratILog_spec 10 (by norm_num) x hx).1
    have h2 : y < (10 : ℚ) ^ (ratILog 10 y + 1) := (ratILog_spec 10 (by norm_num) y hy).2
    have h3 : (10 : ℚ) ^ (ratILog 10 y + 1) ≤ (10 : ℚ) ^ ratILog 10 x :=
      zpow_le_zpow_right₀ (by norm_num) (by omega)
    linarith
  rcases eq_or_lt_of_le hee with heq | hlt
  · rw [decCtxPos, decCtxPos, ← heq]
    have h10 : (0 : ℚ) < qpow 10 (ratILog 10 x - 27) := by
      rw [qpow_eq_zpow]
      exact zpow_pos (by norm_num) _
    apply mul_le_mul_of_nonneg_right _ (le_of_lt h10)
    have hdiv : x / qpow 10 (ratILog 10 x - 27) ≤ y / qpow 10 (ratILog 10 x - 27) := by
      gcongr
    exact_mod_cast rhe_mono hdiv
  · calc decCtxPos x ≤ (10 : ℚ) ^ (ratILog 10 x + 1) := decCtxPos_ub x hx
      _ ≤ (10 : ℚ) ^ ratILog 10 y := zpow_le_zpow_right₀ (by norm_num) (by omega)
      _ ≤ decCtxPos y := decCtxPos_lb y hy

theorem decCtx_nonneg {r : ℚ} (hr : 0 ≤ r) : 0 ≤ decCtx r := by
  rw [decCtx]
  split_ifs with h1 h2
  · exact le_refl 0
  · exact le_of_lt (decCtxPos_pos r h2)
  · exact absurd (lt_of_le_of_ne hr (Ne.symm h1)) h2

theorem decCtx_nonpos {q : ℚ} (hq : q ≤ 0) : decCtx q ≤ 0 := by
  rw [decCtx]
  split_ifs with h1 h2
  · exact le_refl 0
  · exact absurd h2 (not_lt.mpr hq)
  · have : 0 < decCtxPos (-q) := decCtxPos_pos (-q) (by
      have : q < 0 := lt_of_le_of_ne hq h1
      linarith)
    linarith

theorem decCtx_mono {q r : ℚ} (h : q ≤ r) : decCtx q ≤ decCtx r := by
  by_cases hq : 0 < q
  · have hr : 0 < r := lt_of_lt_of_le hq h
    rw [decCtx, decCtx, if_neg (ne_of_gt hq), if_pos hq, if_neg (ne_of_gt hr), if_pos hr]
    exact decCtxPos_mono hq h
  · have hq0 : q ≤ 0 := le_of_not_lt hq
    by_cases hr : 0 ≤ r
    · calc decCtx q ≤ 0 := decCtx_nonpos hq0
        _ ≤ decCtx r := decCtx_nonneg hr
    · push_neg at hr
      have hqneg : q < 0 := lt_of_le_of_lt h hr
      rw [decCtx, decCtx, if_neg (ne_of_lt hqneg), if_neg (not_lt.mpr (le_of_lt hqneg)),
        if_neg (ne_of_lt hr), if_neg (not_lt.mpr (le_of_lt hr))]
      have hmono : decCtxPos (-r) ≤ decCtxPos (-q) :=
        decCtxPos_mono (by linarith) (by linarith)
      linarith

/-! Lemmas about the decoder and the projection. -/

theorem validateEntries_lookup :
    ∀ (l : List (String × RawPrice)) (vm : List (String × PriceInfo)),
      validateEntries l = .ok vm →
      ∀ k rp, alookup l k = some rp →
        ∃ pi, alookup vm k = some pi ∧ validateEntry rp = .ok pi := by
  intro l
  induction l with
  | nil =>
    intro vm h k rp hk
    rw [alookup] at hk
    cases hk
  | cons hd t ih =>
    intro vm h k rp hk
    obtain ⟨k', rp'⟩ := hd
    rw [validateEntries] at h
    cases hve : validateEntry rp' with
    | error e =>
      rw [hve] at h
      cases h
    | ok pi' =>
      rw [hve] at h
      cases hvt : validateEntries t with
      | error e =>
        rw [hvt] at h
        cases h
      | ok m =>
        rw [hvt] at h
        injection h with h
        subst h
        rw [alookup] at hk
        by_cases hkk : k' = k
        · rw [if_pos hkk] at hk
          injection hk with hk
          subst hk
          refine ⟨pi', ?_, hve⟩
          rw [alookup, if_pos hkk]
        · rw [if_neg hkk] at hk
          obtain ⟨pi, hpi, hval⟩ := ih m hvt k rp hk
          refine ⟨pi, ?_, hval⟩
          rw [alookup, if_neg hkk]
          exact hpi

theorem discount_value_eq (s p d : ℚ)
    (h : PriceInfo.discount_percentage ⟨some s, some p⟩ = .ok (some d)) :
    d = (rhu (ctxMul (ctxSub 1 (ctxDiv s p)) 100 * 100) : ℚ) / 100 := by
  simp only [PriceInfo.discount_percentage] at h
  by_cases hp : p = 0
  · rw [if_pos hp] at h
    cases h
  · rw [if_neg hp] at h
    cases hq : pyQuantize2 (ctxMul (ctxSub 1 (ctxDiv s p)) 100) with
    | none =>
      rw [hq] at h
      cases h
    | some q =>
      rw [hq] at h
      injection h with h
      injection h with h
      rw [pyQuantize2] at hq
      by_cases hof : 10 ^ 28 ≤ (rhu (ctxMul (ctxSub 1 (ctxDiv s p)) 100 * 100)).natAbs
      · rw [if_pos hof] at hq
        cases hq
      · rw [if_neg hof] at hq
        injection hq with hq
        rw [← h, ← hq]

theorem outCellOf_none : outCellOf none = .num (.finite 0) := by decide

theorem outCellOf_some (d : ℚ) : outCellOf (some d) = .num (roundDouble d) := by
  by_cases hd : d = 0
  · subst hd
    decide
  · rw [outCellOf, price_or_zero, if_neg hd]

theorem outCellOf_nullifyZero (p : Option ℚ) : outCellOf p = outCellOf (nullifyZero p) := by
  match p with
  | none => rfl
  | some d =>
    by_cases hd : d = 0
    · subst hd
      decide
    · rw [nullifyZero, if_neg hd]

/-! Claim theorems. -/

/-- Claim C1 counterexample: at sale price 2467000000000000000002.71 and
regular price 20000000000000000000021.97 (both exact 2-decimal amounts), the
code returns 87.67 while `(1 - sale/regular) * 100` computed in exact decimal
arithmetic and rounded half-up to 2 places is 87.66: the 28-significant-digit
context rounding of the intermediate quotient flips the final rounding, so the
claim's "exact decimal arithmetic" description is false. -/
theorem claim_C1_counterexample :
    PriceInfo.discount_percentage
        ⟨some (246700000000000000000271 / 100), some (2000000000000000000002197 / 100)⟩ =
      .ok (some (8767 / 100)) ∧
    discountSpec (246700000000000000000271 / 100) (2000000000000000000002197 / 100) =
      8766 / 100 ∧
    PriceInfo.discount_percentage
        ⟨some (246700000000000000000271 / 100), some (2000000000000000000002197 / 100)⟩ ≠
      .ok (some (discountSpec (246700000000000000000271 / 100)
        (2000000000000000000002197 / 100))) := by
  refine ⟨by decide, by decide, by decide⟩

/-- Claim C1 (amended): `discount_percentage` returns null exactly when the
sale price is null, the regular price is null, or the regular price is zero;
otherwise any returned value is `(1 - salePrice/price) * 100` evaluated with
each intermediate operation rounded to 28 significant digits half-even
(Python's default decimal context) and finally quantized to 2 decimal places
half-up (the quantization overflowing 28 digits raises instead of
returning). -/
theorem claim_C1_amended (pi : PriceInfo) :
    (pi.discount_percentage = .ok none ↔
      (pi.salePrice = none ∨ pi.price = none ∨ pi.price = some 0)) ∧
    (∀ s p d, pi.salePrice = some s → pi.price = some p →
      pi.discount_percentage = .ok (some d) →
      d = (rhu (ctxMul (ctxSub 1 (ctxDiv s p)) 100 * 100) : ℚ) / 100) := by
  obtain ⟨sale, price⟩ := pi
  constructor
  · cases sale with
    | none => simp [PriceInfo.discount_percentage]
    | some s =>
      cases price with
      | none => simp [PriceInfo.discount_percentage]
      | some p =>
        by_cases hp : p = 0
        · subst hp
          simp [PriceInfo.discount_percentage]
        · simp only [PriceInfo.discount_percentage, if_neg hp]
          constructor
          · intro h
            exfalso
            cases hq : pyQuantize2 (ctxMul (ctxSub 1 (ctxDiv s p)) 100) with
            | none => rw [hq] at h; cases h
            | some q => rw [hq] at h; cases h
          · intro h
            rcases h with h | h | h
            · cases h
            · cases h
            · injection h with h
              exact absurd h hp
  · intro s p d hs hp h
    dsimp only at hs hp
    subst hs
    subst hp
    exact discount_value_eq s p d h

/-- Claim C1 witness: the null case and the value case of the amended theorem
at concrete inputs (sale 1, regular 2 gives exactly 50 percent). -/
theorem claim_C1_witness :
    PriceInfo.discount_percentage ⟨none, some 2⟩ = .ok none ∧
    (50 : ℚ) = (rhu (ctxMul (ctxSub 1 (ctxDiv 1 2)) 100 * 100) : ℚ) / 100 :=
  ⟨(claim_C1_amended ⟨none, some 2⟩).1.mpr (Or.inl rfl),
   (claim_C1_amended ⟨some 1, some 2⟩).2 1 2 50 rfl rfl (by decide)⟩

/-- Claim C2: constructing an `ItemPrice` fails with the wrong-SKU error when
some entry's bound SKU differs from the declared SKU; fails with the
missing-country error when, all SKUs matching, the entry count differs from
the number of declared countries; succeeds otherwise; and any failing
construction surfaces exactly one of these two error kinds. -/
theorem claim_C2 (sku : SkuVal) (m : PriceMap) :
    ((∃ cp ∈ m.values, skuMatches sku cp.sku = false) →
      ItemPrice.construct sku m = .error .wrongSku) ∧
    ((∀ cp ∈ m.values, skuMatches sku cp.sku = true) →
      m.values.length ≠ countries.length →
      ItemPrice.construct sku m = .error .missingCountry) ∧
    ((∀ cp ∈ m.values, skuMatches sku cp.sku = true) →
      m.values.length = countries.length →
      ItemPrice.construct sku m = .ok ⟨sku, m⟩) ∧
    (∀ e, ItemPrice.construct sku m = .error e → e = .wrongSku ∨ e = .missingCountry) := by
  refine ⟨?_, ?_, ?_, ?_⟩
  · intro h
    obtain ⟨cp, hmem, hcp⟩ := h
    have hany : m.values.any (fun cp => !skuMatches sku cp.sku) = true := by
      rw [List.any_eq_true]
      exact ⟨cp, hmem, by rw [hcp]; rfl⟩
    rw [ItemPrice.construct, if_pos hany]
  · intro hall hlen
    have hany : m.values.any (fun cp => !skuMatches sku cp.sku) = false := by
      rw [List.any_eq_false]
      intro cp hmem
      rw [hall cp hmem]
      decide
    rw [ItemPrice.construct, hany]
    simp only [Bool.false_eq_true, if_false, if_pos hlen]
  · intro hall hlen
    have hany : m.values.any (fun cp => !skuMatches sku cp.sku) = false := by
      rw [List.any_eq_false]
      intro cp hmem
      rw [hall cp hmem]
      decide
    rw [ItemPrice.construct, hany]
    simp only [Bool.false_eq_true, if_false, hlen, ne_eq, not_true_eq_false]
  · intro e he
    rw [ItemPrice.construct] at he
    split_ifs at he with h1 h2
    · injection he with he
      exact Or.inl he.symm
    · injection he with he
      exact Or.inr he.symm

/-- Claim C2 witness: each branch of the characterization at concrete inputs:
a mismatched SKU fails wrong-SKU, a single-region map fails missing-country,
and a complete consistent map validates. -/
theorem claim_C2_witness :
    ItemPrice.construct (.str "A")
        ⟨some ⟨"B", none, none, .CA⟩, some ⟨"A", none, none, .US⟩⟩ = .error .wrongSku ∧
    ItemPrice.construct (.str "A") ⟨some ⟨"A", none, none, .CA⟩, none⟩ =
      .error .missingCountry ∧
    ItemPrice.construct (.str "A")
        ⟨some ⟨"A", none, none, .CA⟩, some ⟨"A", none, none, .US⟩⟩ =
      .ok ⟨.str "A", ⟨some ⟨"A", none, none, .CA⟩, some ⟨"A", none, none, .US⟩⟩⟩ :=
  ⟨(claim_C2 (.str "A") _).1 ⟨⟨"B", none, none, .CA⟩, by decide, by decide⟩,
   (claim_C2 (.str "A") _).2.1 (by decide) (by decide),
   (claim_C2 (.str "A") _).2.2.1 (by decide) (by decide)⟩

/-- Claim C4: projection of a validated record is the fixed-order row
`[sku as text, US price, US sale price, CA price, CA sale price]`, every null
amount projects to the numeric value 0, and an all-null record projects to
`[sku, 0, 0, 0, 0]`. -/
theorem claim_C4 (sv : SkuVal) (u c : CountryPrice) :
    ItemPrice.output_str_value ⟨sv, ⟨some c, some u⟩⟩ =
      some [.text sv.toText, outCellOf u.price, outCellOf u.sale_price,
            outCellOf c.price, outCellOf c.sale_price] ∧
    outCellOf none = .num (.finite 0) ∧
    ItemPrice.output_str_value
        ⟨sv, ⟨some ⟨c.sku, none, none, .CA⟩, some ⟨u.sku, none, none, .US⟩⟩⟩ =
      some [.text sv.toText, .num (.finite 0), .num (.finite 0), .num (.finite 0),
            .num (.finite 0)] :=
  ⟨rfl, outCellOf_none, by simp only [ItemPrice.output_str_value, outCellOf_none]⟩

/-- Claim C9: a present-but-zero amount projects exactly like a null amount
(numeric 0): the projected row of a record equals the row of the record with
every zero amount replaced by null, so the output cannot distinguish them. -/
theorem claim_C9 (sv : SkuVal) (u c : CountryPrice) :
    ItemPrice.output_str_value ⟨sv, ⟨some c, some u⟩⟩ =
      ItemPrice.output_str_value ⟨sv, ⟨some (nullifyZeroCP c), some (nullifyZeroCP u)⟩⟩ ∧
    outCellOf (some 0) = .num (.finite 0) ∧
    outCellOf (some 0) = outCellOf none := by
  refine ⟨?_, by decide, by decide⟩
  simp only [ItemPrice.output_str_value, nullifyZeroCP]
  rw [← outCellOf_nullifyZero u.price, ← outCellOf_nullifyZero u.sale_price,
    ← outCellOf_nullifyZero c.price, ← outCellOf_nullifyZero c.sale_price]

/-- Claim C3 counterexample: the payload `{"us":{"price":"10.00","salePrice":"abc"}}`
is syntactically valid JSON and lacks the declared region key `"ca"`, yet
decoding fails with the pydantic validation error (malformed payload), not
with the region-not-found error, because value validation runs before the
region lookup. -/
theorem claim_C3_counterexample :
    alookup (collapse [("us", RawPrice.mk (some "10.00") (some "abc"))]) "ca" = none ∧
    get_pricing_from_JSON [("us", RawPrice.mk (some "10.00") (some "abc"))] "1234" =
      .error .malformedPayload ∧
    ∀ c, get_pricing_from_JSON [("us", RawPrice.mk (some "10.00") (some "abc"))] "1234" ≠
      .error (.regionNotFound c) := by
  refine ⟨by decide, by decide, ?_⟩
  intro c
  cases c <;> decide

/-- Claim C3 (amended): for every payload whose entries all pass validation,
if the key of some declared Region is absent from the decoded object then
decoding fails with the distinct region-not-found error kind, and the same
error is the row's result: aggregate construction is never reached. -/
theorem claim_C3_amended (entries : List (String × RawPrice)) (sku : String)
    (vm : List (String × PriceInfo)) (hv : productPricingValidate entries = .ok vm)
    (c0 : Country) (hmiss : alookup vm c0.value = none) :
    ∃ c, get_pricing_from_JSON entries sku = .error (.regionNotFound c) ∧
      processRow entries sku = .error (.regionNotFound c) := by
  have key : ∃ c, get_pricing_from_JSON entries sku = .error (.regionNotFound c) := by
    cases hca : alookup vm (Country.value .CA) with
    | none =>
      refine ⟨.CA, ?_⟩
      simp only [get_pricing_from_JSON, hv, hca]
    | some piCA =>
      cases hus : alookup vm (Country.value .US) with
      | none =>
        refine ⟨.US, ?_⟩
        simp only [get_pricing_from_JSON, hv, hca, hus]
      | some piUS =>
        exfalso
        cases c0 with
        | CA => rw [hca] at hmiss; cases hmiss
        | US => rw [hus] at hmiss; cases hmiss
  obtain ⟨c, hgp⟩ := key
  exact ⟨c, hgp, by simp only [processRow, hgp]⟩

/-- Claim C3 witness: a well-formed payload holding only the `"us"` entry
fails with region-not-found before construction. -/
theorem claim_C3_witness :
    ∃ c, get_pricing_from_JSON [("us", RawPrice.mk (some "10.00") (some "5.00"))] "7" =
        .error (.regionNotFound c) ∧
      processRow [("us", RawPrice.mk (some "10.00") (some "5.00"))] "7" =
        .error (.regionNotFound c) :=
  claim_C3_amended [("us", RawPrice.mk (some "10.00") (some "5.00"))] "7"
    [("us", ⟨some 5, some 10⟩)] (by decide) .CA (by decide)

/-- Claim C5: decoding a fully validated payload that has entries for both
declared regions and then projecting yields the fixed row of the decoded
values, each present amount reproduced exactly up to the binary64 conversion
of the numeric output type, and each absent amount as 0. -/
theorem claim_C5 (entries : List (String × RawPrice)) (sku : String)
    (vm : List (String × PriceInfo)) (piU piC : PriceInfo)
    (hv : productPricingValidate entries = .ok vm)
    (hca : alookup vm "ca" = some piC) (hus : alookup vm "us" = some piU) :
    rowOutput entries sku =
      .ok (some [.text sku, outCellOf piU.price, outCellOf piU.salePrice,
                 outCellOf piC.price, outCellOf piC.salePrice]) ∧
    (∀ d, outCellOf (some d) = .num (roundDouble d)) := by
  constructor
  · have hgp : get_pricing_from_JSON entries sku =
        .ok ⟨some ⟨sku, piC.price, piC.salePrice, .CA⟩,
             some ⟨sku, piU.price, piU.salePrice, .US⟩⟩ := by
      simp only [get_pricing_from_JSON, Country.value, hv, hca, hus]
    have hany : (PriceMap.mk (some ⟨sku, piC.price, piC.salePrice, .CA⟩)
        (some ⟨sku, piU.price, piU.salePrice, .US⟩)).values.any
          (fun cp => !skuMatches (.str sku) cp.sku) = false := by
      simp [PriceMap.values, skuMatches]
    have hcon : ItemPrice.construct (.str sku)
        ⟨some ⟨sku, piC.price, piC.salePrice, .CA⟩,
         some ⟨sku, piU.price, piU.salePrice, .US⟩⟩ =
        .ok ⟨.str sku, ⟨some ⟨sku, piC.price, piC.salePrice, .CA⟩,
             some ⟨sku, piU.price, piU.salePrice, .US⟩⟩⟩ := by
      rw [ItemPrice.construct, hany]
      simp [PriceMap.values, countries]
    simp only [rowOutput, processRow, hgp, hcon, ItemPrice.output_str_value, SkuVal.toText]
  · intro d
    exact outCellOf_some d

/-- Claim C5 witness: the spec's end-to-end row: SKU `"1234"`, payload
`{"us":{"price":"129.99","salePrice":"99.50"},"ca":{"price":"","salePrice":""}}`
projects to `["1234", float 129.99, float 99.50, 0, 0]`. -/
theorem claim_C5_witness :
    rowOutput [("us", RawPrice.mk (some "129.99") (some "99.50")),
               ("ca", RawPrice.mk (some "") (some ""))] "1234" =
      .ok (some [.text "1234", .num (roundDouble (12999 / 100)),
                 .num (roundDouble (199 / 2)), .num (.finite 0), .num (.finite 0)]) := by
  have h := claim_C5
    [("us", RawPrice.mk (some "129.99") (some "99.50")), ("ca", RawPrice.mk (some "") (some ""))]
    "1234" [("us", ⟨some (199 / 2), some (12999 / 100)⟩), ("ca", ⟨none, none⟩)]
    ⟨some (199 / 2), some (12999 / 100)⟩ ⟨none, none⟩ (by decide) (by decide) (by decide)
  rw [h.1]
  decide

/-- Claim C6 counterexample: a payload in which region `"us"` has an
empty-string `price` but a malformed `salePrice` field fails decoding
entirely, contradicting the claim that decoding succeeds for every payload
containing an empty-string price field. -/
theorem claim_C6_counterexample :
    alookup (collapse [("us", RawPrice.mk (some "") (some "abc")),
        ("ca", RawPrice.mk (some "1.00") (some "1.00"))]) "us" =
      some (RawPrice.mk (some "") (some "abc")) ∧
    productPricingValidate [("us", RawPrice.mk (some "") (some "abc")),
        ("ca", RawPrice.mk (some "1.00") (some "1.00"))] =
      .error .malformedPayload := by
  exact ⟨by decide, by decide⟩

/-- Claim C6 (amended): in every payload that decodes successfully, an
empty-string `price` (resp. `salePrice`) field decodes to a null amount, and
`has_pricing` is false for that region. -/
theorem claim_C6_amended (entries : List (String × RawPrice))
    (vm : List (String × PriceInfo)) (hv : productPricingValidate entries = .ok vm)
    (k : String) (rp : RawPrice) (hk : alookup (collapse entries) k = some rp)
    (pi : PriceInfo) (hpi : alookup vm k = some pi) :
    (rp.price = some "" → pi.price = none) ∧
    (rp.salePrice = some "" → pi.salePrice = none) ∧
    ((rp.price = some "" ∨ rp.salePrice = some "") → pi.has_pricing = false) := by
  rw [productPricingValidate] at hv
  cases hve : validateEntries (collapse entries) with
  | error e =>
    rw [hve] at hv
    cases hv
  | ok m =>
    rw [hve] at hv
    injection hv with hv
    subst hv
    obtain ⟨pi', hpi', hval⟩ := validateEntries_lookup _ _ hve k rp hk
    rw [hpi] at hpi'
    injection hpi' with hpi'
    subst hpi'
    rw [validateEntry] at hval
    have hempty : validateAmount (some "") = .ok none := by decide
    have hprice : rp.price = some "" → pi.price = none := by
      intro hp
      rw [hp, hempty] at hval
      cases hs : validateAmount rp.salePrice with
      | error e => rw [hs] at hval; cases hval
      | ok s =>
        rw [hs] at hval
        injection hval with hval
        rw [← hval]
    have hsale : rp.salePrice = some "" → pi.salePrice = none := by
      intro hp
      rw [hp, hempty] at hval
      cases hs : validateAmount rp.price with
      | error e => rw [hs] at hval; cases hval
      | ok s =>
        rw [hs] at hval
        injection hval with hval
        rw [← hval]
    refine ⟨hprice, hsale, ?_⟩
    intro hor
    rcases hor with hp | hs
    · rw [PriceInfo.has_pricing, hprice hp]
      simp
    · rw [PriceInfo.has_pricing, hsale hs]
      simp

/-- Claim C6 witness: in the decoded payload `{"us":{"price":"","salePrice":"1.00"}}`
the US amount is null and `has_pricing` is false. -/
theorem claim_C6_witness :
    (PriceInfo.mk (some 1) none).price = none ∧
    (PriceInfo.mk (some 1) none).has_pricing = false :=
  have h := claim_C6_amended [("us", RawPrice.mk (some "") (some "1.00"))]
    [("us", ⟨some 1, none⟩)] (by decide) "us" (RawPrice.mk (some "") (some "1.00"))
    (by decide) ⟨some 1, none⟩ (by decide)
  ⟨h.1 rfl, h.2.2 (Or.inl rfl)⟩

/-- Claim C7: every amount decoded from a valid numeric string is the string's
exact literal decimal value (no rounding), carries at most two literal decimal
places, and is an integer multiple of 1/100, i.e. exactly representable with
two fractional digits. -/
theorem claim_C7 (s : String) (v : ℚ) (h : validateAmount (some s) = .ok (some v)) :
    ∃ c : ℤ, ∃ dp : ℕ, parseDecString s = some (c, dp) ∧ dp ≤ 2 ∧
      v = (c : ℚ) / 10 ^ dp ∧ ∃ m : ℤ, v = (m : ℚ) / 100 := by
  rw [validateAmount] at h
  by_cases hs : s = ""
  · subst hs
    simp only [empty_string_to_none, if_pos rfl] at h
    cases h
  · simp only [empty_string_to_none, if_neg hs] at h
    cases hp : parseDecString s with
    | none =>
      rw [hp] at h
      cases h
    | some cd =>
      rw [hp] at h
      dsimp only at h
      by_cases hdp : cd.2 ≤ 2
      · rw [if_pos hdp] at h
        injection h with h
        injection h with h
        refine ⟨cd.1, cd.2, rfl, hdp, h.symm, ?_⟩
        refine ⟨cd.1 * 10 ^ (2 - cd.2), ?_⟩
        rw [← h]
        have h2 : (2 : ℕ) - cd.2 + cd.2 = 2 := by omega
        push_cast
        rw [div_eq_div_iff (by positivity) (by norm_num)]
        calc (cd.1 : ℚ) * 100 = (cd.1 : ℚ) * (10 : ℚ) ^ (2 : ℕ) := by norm_num
          _ = (cd.1 : ℚ) * ((10 : ℚ) ^ (2 - cd.2) * (10 : ℚ) ^ cd.2) := by
              rw [← pow_add, h2]
          _ = (cd.1 : ℚ) * (10 : ℚ) ^ (2 - cd.2) * (10 : ℚ) ^ cd.2 := by ring
      · rw [if_neg hdp] at h
        cases h

/-- Claim C7 witness: the string `"129.99"` decodes to the exact value
12999/100. -/
theorem claim_C7_witness :
    ∃ c : ℤ, ∃ dp : ℕ, parseDecString "129.99" = some (c, dp) ∧ dp ≤ 2 ∧
      (12999 / 100 : ℚ) = (c : ℚ) / 10 ^ dp ∧ ∃ m : ℤ, (12999 / 100 : ℚ) = (m : ℚ) / 100 :=
  claim_C7 "129.99" (12999 / 100) (by decide)

/-- Claim C8 counterexample: at the non-null, non-zero regular price -10.00
with sale prices 5.00 > 1.00, the discount at the smaller sale price (110.00)
is smaller than the discount at the larger one (150.00), refuting the claimed
monotonicity for every non-zero regular price. -/
theorem claim_C8_counterexample :
    PriceInfo.discount_percentage ⟨some 5, some (-10)⟩ = .ok (some 150) ∧
    PriceInfo.discount_percentage ⟨some 1, some (-10)⟩ = .ok (some 110) ∧
    ¬(150 ≤ (110 : ℚ)) := by
  exact ⟨by decide, by decide, by decide⟩

/-- Claim C8 (amended): for every fixed positive regular price and sale prices
s1 > s2, whenever both discount computations return values, the discount at s2
is at least the discount at s1. -/
theorem claim_C8_amended (p s1 s2 d1 d2 : ℚ) (hp : 0 < p) (hs : s2 < s1)
    (h1 : PriceInfo.discount_percentage ⟨some s1, some p⟩ = .ok (some d1))
    (h2 : PriceInfo.discount_percentage ⟨some s2, some p⟩ = .ok (some d2)) :
    d1 ≤ d2 := by
  have e1 := discount_value_eq s1 p d1 h1
  have e2 := discount_value_eq s2 p d2 h2
  rw [e1, e2]
  have hx : s2 / p ≤ s1 / p := by
    gcongr

  have hxc : ctxDiv s2 p ≤ ctxDiv s1 p := decCtx_mono hx
  have hyc : ctxSub 1 (ctxDiv s1 p) ≤ ctxSub 1 (ctxDiv s2 p) := decCtx_mono (by linarith)
  have hzc : ctxMul (ctxSub 1 (ctxDiv s1 p)) 100 ≤ ctxMul (ctxSub 1 (ctxDiv s2 p)) 100 :=
    decCtx_mono (by linarith)
  have hr : rhu (ctxMul (ctxSub 1 (ctxDiv s1 p)) 100 * 100) ≤
      rhu (ctxMul (ctxSub 1 (ctxDiv s2 p)) 100 * 100) := rhu_mono (by linarith)
  have hrq : ((rhu (ctxMul (ctxSub 1 (ctxDiv s1 p)) 100 * 100) : ℤ) : ℚ) ≤
      ((rhu (ctxMul (ctxSub 1 (ctxDiv s2 p)) 100 * 100) : ℤ) : ℚ) := by
    exact_mod_cast hr
  linarith

/-- Claim C8 witness: at regular price 2, the discount for sale price 0
(100 percent) is at least the discount for sale price 1 (50 percent). -/
theorem claim_C8_witness : (50 : ℚ) ≤ 100 :=
  claim_C8_amended 2 1 0 50 100 (by norm_num) (by norm_num) (by decide) (by decide)

/-- Claim C10 counterexample: a payload containing well-formed entries for
both declared regions plus an extra `"mx"` key with a malformed price fails
decoding, contradicting the claim that unrecognized extra keys never cause a
decoding failure for syntactically valid payloads with all declared regions
present. -/
theorem claim_C10_counterexample :
    alookup (collapse [("us", RawPrice.mk (some "1.00") (some "1.00")),
        ("ca", RawPrice.mk (some "1.00") (some "1.00")),
        ("mx", RawPrice.mk (some "abc") none)]) "us" ≠ none ∧
    alookup (collapse [("us", RawPrice.mk (some "1.00") (some "1.00")),
        ("ca", RawPrice.mk (some "1.00") (some "1.00")),
        ("mx", RawPrice.mk (some "abc") none)]) "ca" ≠ none ∧
    get_pricing_from_JSON [("us", RawPrice.mk (some "1.00") (some "1.00")),
        ("ca", RawPrice.mk (some "1.00") (some "1.00")),
        ("mx", RawPrice.mk (some "abc") none)] "1" = .error .malformedPayload := by
  exact ⟨by decide, by decide, by decide⟩

/-- Claim C10 (amended): for every payload whose entries all validate and
which has entries for both declared regions, decoding succeeds regardless of
any extra keys, and the output map holds exactly the declared regions (one
`CountryPrice` for CA and one for US, nothing else). -/
theorem claim_C10_amended (entries : List (String × RawPrice)) (sku : String)
    (vm : List (String × PriceInfo)) (piU piC : PriceInfo)
    (hv : productPricingValidate entries = .ok vm)
    (hca : alookup vm "ca" = some piC) (hus : alookup vm "us" = some piU) :
    get_pricing_from_JSON entries sku =
      .ok ⟨some ⟨sku, piC.price, piC.salePrice, .CA⟩,
           some ⟨sku, piU.price, piU.salePrice, .US⟩⟩ := by
  simp only [get_pricing_from_JSON, Country.value, hv, hca, hus]

/-- Claim C10 witness: the extra well-formed `"mx"` entry is ignored and the
decoder returns exactly the two declared regions. -/
theorem claim_C10_witness :
    get_pricing_from_JSON [("us", RawPrice.mk (some "1.50") (some "1.00")),
        ("ca", RawPrice.mk (some "2.00") (some "")),
        ("mx", RawPrice.mk (some "5.00") none)] "9" =
      .ok ⟨some ⟨"9", some 2, none, .CA⟩, some ⟨"9", some (3 / 2), some 1, .US⟩⟩ :=
  claim_C10_amended [("us", RawPrice.mk (some "1.50") (some "1.00")),
      ("ca", RawPrice.mk (some "2.00") (some "")),
      ("mx", RawPrice.mk (some "5.00") none)] "9"
    [("us", ⟨some 1, some (3 / 2)⟩), ("ca", ⟨none, some 2⟩), ("mx", ⟨none, some 5⟩)]
    ⟨some 1, some (3 / 2)⟩ ⟨none, some 2⟩ (by decide) (by decide) (by decide)

end PricingReport
